import Mathlib

/-!
Verification development for the ae-trend-analyzer core: a shallow embedding of
the FAERS ETL pipeline (src/etl/faers_loader.py, src/etl/build_all.py) and of
the anomaly-detection engine (src/analysis/anomaly.py, src/analysis/insights.py),
with theorems settling the behavioural claims about those modules.

Modelling conventions:
- pandas DataFrames become typed row lists; a generic result frame is a list of
  column names plus a list of cell rows (shape = columns and row count).
- floats become exact rationals.  Standard deviations are square roots of
  rational variances and hence irrational in general, so a frame stores the
  std column as its square (the variance, with the same NaN-to-0 handling as
  the code) and the z column as the signed square of the z-score:
  a cell q stands for z with z * |z| = q.  Thus z = 0 iff the stored cell is 0,
  and |z| > t iff t < 0 or t^2 < |q|, which is exactly how spike flags are
  computed here.  All claims about z only concern z = 0 and spike flags, which
  this representation preserves exactly.
- missing values (NaN) become Option.none; external libraries (statsmodels STL,
  Prophet, pandas to_datetime fallback) become function parameters, with an
  outcome type distinguishing an ImportError from a generic failure.
-/

namespace AE

/-! ### Generic list helpers -/

/-- First-occurrence deduplication by a key function, with an accumulator of
keys already seen.  Models pandas drop_duplicates(subset=..., keep="first"). -/
def dedupByKeyAux {α κ : Type} [DecidableEq κ] (key : α → κ) (seen : List κ) :
    List α → List α
  | [] => []
  | x :: xs =>
      if key x ∈ seen then dedupByKeyAux key seen xs
      else x :: dedupByKeyAux key (key x :: seen) xs

/-- drop_duplicates(subset=key, keep="first"). -/
def dedupByKey {α κ : Type} [DecidableEq κ] (key : α → κ) (l : List α) : List α :=
  dedupByKeyAux key [] l

/-- ASCII lower-casing of a string, character by character; models the
method.lower() call in detect_anomalies. -/
def lowerStr (s : String) : String := ⟨s.data.map Char.toLower⟩

/-! ### Anomaly detection engine (src/analysis/anomaly.py)

A pandas Series indexed by month starts becomes a list of (month, value)
pairs, months counted as naturals at monthly granularity (freq MS steps by
one month, so consecutive months differ by one). -/

/-- One cell of a result DataFrame: a rational number or a boolean flag. -/
inductive Cell : Type
  | q (x : ℚ)
  | b (v : Bool)
deriving DecidableEq, Repr

/-- A result DataFrame: its column names and its rows of cells.  The shape of
a frame is its column list together with its number of rows. -/
structure Frame : Type where
  columns : List String
  rows : List (List Cell)
deriving DecidableEq, Repr

/-- A monthly series: (month index, value) pairs. -/
abbrev Series : Type := List (ℕ × ℚ)

/-- Sum of the values of the pairs falling in month m (groupby month, sum). -/
def monthSum (pairs : Series) (m : ℕ) : ℚ :=
  ((pairs.filter fun p => p.1 = m).map Prod.snd).sum

/-- ensure_monthly_index: group the (date, value) pairs by month and sum
duplicates, then reindex onto every month between the minimum and the maximum
observed month (pd.date_range freq MS), filling unobserved months with 0.
An empty input yields an empty series. -/
def ensure_monthly_index (pairs : Series) : Series :=
  match pairs with
  | [] => []
  | p :: ps =>
      let lo := (ps.map Prod.fst).foldl min p.1
      let hi := (ps.map Prod.fst).foldl max p.1
      (List.range (hi + 1 - lo)).map fun k => (lo + k, monthSum (p :: ps) (lo + k))

/-- One row of the rolling Z-score result.  stdSq holds the square of the std
column (the sample variance, with NaN and 0 both stored as 0 exactly as the
code's fillna does); zSq holds the signed square of the z column. -/
structure RollingRow : Type where
  value : ℚ
  mean : ℚ
  stdSq : ℚ
  zSq : ℚ
  is_spike : Bool
deriving DecidableEq, Repr

def RollingRow.cells (r : RollingRow) : List Cell :=
  [.q r.value, .q r.mean, .q r.stdSq, .q r.zSq, .b r.is_spike]

def rollingCols : List String := ["value", "mean", "std", "z", "is_spike"]

/-- The per-point computation of rolling_zscore: a trailing window of up to
window points (min_periods=1), rolling mean and sample variance (ddof=1, None
models the NaN a one-point window produces).  The code replaces a 0 std by NaN
and fills the resulting NaN z with 0, so z is 0 whenever the variance is 0 or
undefined; otherwise z = (x - mean)/std, stored as its signed square.
is_spike is |z| > t, i.e. t < 0 or t^2 < |zSq|. -/
def rollingRowAt (vals : List ℚ) (window : ℕ) (z_thresh : ℚ) (i : ℕ) : RollingRow :=
  let x := vals.getD i 0
  let win := (vals.take (i + 1)).drop (i + 1 - window)
  let k := win.length
  let mean := win.sum / (k : ℚ)
  let svar : Option ℚ :=
    if k ≤ 1 then none
    else some (((win.map fun v => (v - mean) ^ 2).sum) / ((k : ℚ) - 1))
  let zSq : ℚ :=
    match svar with
    | none => 0
    | some v => if v = 0 then 0 else (x - mean) * |x - mean| / v
  { value := x
    mean := mean
    stdSq := svar.getD 0
    zSq := zSq
    is_spike := if z_thresh < 0 then true else decide (z_thresh ^ 2 < |zSq|) }

def rollingRows (s : Series) (window : ℕ) (z_thresh : ℚ) : List RollingRow :=
  (List.range (s.map Prod.snd).length).map (rollingRowAt (s.map Prod.snd) window z_thresh)

/-- rolling_zscore: empty result frame when the series is empty or shorter
than the window, otherwise one row per point. -/
def rolling_zscore (s : Series) (window : ℕ) (z_thresh : ℚ) : Frame :=
  if s.isEmpty || s.length < window then ⟨rollingCols, []⟩
  else ⟨rollingCols, (rollingRows s window z_thresh).map RollingRow.cells⟩

def stlCols : List String := ["value", "trend", "seasonal", "resid", "z", "is_spike"]

/-- Outcome of invoking an optional statistical library on a series:
the library is not installed (ImportError), its fit raised a generic
exception, or it produced three aligned component series. -/
inductive LibOutcome : Type
  | missing
  | failed
  | ok (c1 c2 c3 : List ℚ)

/-- Z-scores from a residual component: mean and sample std of the residuals;
if the std is 0 or undefined the z column is identically 0, otherwise
z_i = (resid_i - mean)/std, stored as its signed square. -/
def residZ (resid : List ℚ) : List ℚ :=
  let n := resid.length
  let mean := resid.sum / (n : ℚ)
  let svar : Option ℚ :=
    if n ≤ 1 then none
    else some (((resid.map fun v => (v - mean) ^ 2).sum) / ((n : ℚ) - 1))
  match svar with
  | none => resid.map fun _ => 0
  | some v =>
      if v = 0 then resid.map fun _ => 0
      else resid.map fun r => (r - mean) * |r - mean| / v

/-- Rows of an STL result frame from the series and its three components. -/
def stlRows (s : Series) (trend seasonal resid : List ℚ) (z_thresh : ℚ) :
    List (List Cell) :=
  let zs := residZ resid
  (((s.map Prod.snd).zip (trend.zip (seasonal.zip resid))).zip zs).map
    fun pc =>
      [.q pc.1.1, .q pc.1.2.1, .q pc.1.2.2.1, .q pc.1.2.2.2, .q pc.2,
       .b (if z_thresh < 0 then true else decide (z_thresh ^ 2 < |pc.2|))]

/-- stl_spikes: empty STL-shaped frame when the series is empty or shorter
than 2 * period; the statsmodels import happens only after that guard, so a
missing library (ImportError, re-raised to the caller) is modelled as an
error value, a generic decomposition failure as the empty frame. -/
def stl_spikes (lib : Series → LibOutcome) (s : Series) (period : ℕ)
    (z_thresh : ℚ) : Except Unit Frame :=
  if s.isEmpty || s.length < 2 * period then .ok ⟨stlCols, []⟩
  else
    match lib s with
    | .missing => .error ()
    | .failed => .ok ⟨stlCols, []⟩
    | .ok trend seasonal resid => .ok ⟨stlCols, stlRows s trend seasonal resid z_thresh⟩

/-- prophet_spikes: empty frame when the series has fewer than 24 points;
otherwise the Prophet library yields trend, yearly seasonal and predicted
series, residuals are value - predicted, and z-scores come from the
residuals as in stl_spikes. -/
def prophet_spikes (lib : Series → LibOutcome) (s : Series) (z_thresh : ℚ) :
    Except Unit Frame :=
  if s.isEmpty || s.length < 24 then .ok ⟨stlCols, []⟩
  else
    match lib s with
    | .missing => .error ()
    | .failed => .ok ⟨stlCols, []⟩
    | .ok trend seasonal predicted =>
        let resid := ((s.map Prod.snd).zip predicted).map fun p => p.1 - p.2
        .ok ⟨stlCols, stlRows s trend seasonal resid z_thresh⟩

/-- The optional statistical capabilities available to detect_anomalies. -/
structure Caps : Type where
  stl : Series → LibOutcome
  prophet : Series → LibOutcome

/-- detect_anomalies: unified dispatch with defaults (stl: period 12,
threshold 2.5; rolling_z: window 6, threshold 2.0; unknown methods go to
stl).  An ImportError or any other exception escaping the chosen method
falls back to the rolling Z-score; an empty frame returned by the method is
passed through unchanged. -/
def detect_anomalies (caps : Caps) (s : Series) (method : String) : Frame :=
  if s.isEmpty then ⟨["value", "z", "is_spike"], []⟩
  else
    let m := lowerStr method
    let attempt : Except Unit Frame :=
      if m = "stl" then stl_spikes caps.stl s 12 (5 / 2)
      else if m = "rolling_z" then .ok (rolling_zscore s 6 2)
      else if m = "prophet" then prophet_spikes caps.prophet s (5 / 2)
      else stl_spikes caps.stl s 12 (5 / 2)
    match attempt with
    | .ok f => f
    | .error _ => rolling_zscore s 6 2

/-- One ranked spike: 1-based rank, month, raw value and z-score (the z field
uses the signed-square representation, which has the same absolute order as z
itself, so the descending |z| sort is unchanged). -/
structure Spike : Type where
  rank : ℕ
  date : ℕ
  value : ℚ
  z : ℚ
deriving DecidableEq, Repr

/-- Insert into a list sorted descending by f. -/
def insertDescBy {α : Type} (f : α → ℚ) (a : α) : List α → List α
  | [] => [a]
  | b :: bs => if f b < f a then a :: b :: bs else b :: insertDescBy f a bs

/-- Sort descending by f; models sort_values(ascending=False). -/
def sortDescBy {α : Type} (f : α → ℚ) : List α → List α
  | [] => []
  | a :: as => insertDescBy f a (sortDescBy f as)

/-- rank_spikes: keep the rows flagged as spikes, sort by descending absolute
z-score, take the top k and attach 1-based ranks and the index dates.  The
index of the frame is passed alongside, as the caller passes an empty
date_col and the code then reads dates off the index. -/
def rank_spikes (f : Frame) (index : List ℕ) (k : ℕ) : List Spike :=
  if f.rows.isEmpty || !(f.columns.contains "is_spike") || !(f.columns.contains "z") then []
  else
    let zi := f.columns.indexOf "z"
    let si := f.columns.indexOf "is_spike"
    let vi := f.columns.indexOf "value"
    let getQ : List Cell → ℕ → ℚ := fun cells i =>
      match cells.getD i (.q 0) with
      | .q x => x
      | .b _ => 0
    let spikes := (index.zip f.rows).filter fun p => p.2.getD si (.b false) = .b true
    if spikes.isEmpty then []
    else
      let sorted := sortDescBy (fun p => |getQ p.2 zi|) spikes
      (sorted.take k).enum.map fun ip =>
        { rank := ip.1 + 1
          date := ip.2.1
          value := getQ ip.2.2 vi
          z := getQ ip.2.2 zi }

/-! ### Insight summarization (src/analysis/insights.py) -/

/-- The record summarize_top_spikes_overall returns. -/
structure Summary : Type where
  method : String
  n_months : ℕ
  top_spikes : List Spike
  note : String
deriving DecidableEq, Repr

/-- summarize_top_spikes_overall, taking the already-loaded monthly counts
table (the pd.read_csv boundary) as the df argument.  detect_anomalies is
called with the requested method and no further parameters, so every
detector runs with its defaults. -/
def summarize_top_spikes_overall (caps : Caps) (df : Series) (method : String)
    (k : ℕ) : Summary :=
  if df.length < 2 then
    { method := method, n_months := 0, top_spikes := [],
      note := "Insufficient data available" }
  else
    let series := ensure_monthly_index df
    if series.length < 2 then
      { method := method, n_months := 0, top_spikes := [],
        note := "Insufficient data after processing" }
    else
      let adf := detect_anomalies caps series method
      if adf.rows.isEmpty then
        { method := method, n_months := series.length, top_spikes := [],
          note := "No anomalies detected using " ++ method ++ " method" }
      else
        let tops := rank_spikes adf (series.map Prod.fst) k
        let fallback_note :=
          if method = "stl" ∧ series.length < 24 then
            "Fallback to rolling Z-score (insufficient data for STL)"
          else if method = "prophet" ∧ series.length < 24 then
            "Fallback to rolling Z-score (insufficient data for Prophet)"
          else ""
        { method := method, n_months := series.length, top_spikes := tops,
          note := if fallback_note ≠ "" then fallback_note
            else "Anomaly detection using " ++ method ++ " method" }

/-! ### FAERS ETL: robust date parsing (src/etl/faers_loader.py) -/

/-- A calendar date as Python datetime.date holds it. -/
structure Ymd : Type where
  year : ℕ
  month : ℕ
  day : ℕ
deriving DecidableEq, Repr

/-- Whitespace characters str.strip removes. -/
def isPyWs (c : Char) : Bool :=
  c = ' ' || c = '\t' || c = '\n' || c = '\r' || c = '\x0b' || c = '\x0c'

/-- str.strip(): drop whitespace from both ends. -/
def pyStrip (s : List Char) : List Char :=
  ((s.dropWhile isPyWs).reverse.dropWhile isPyWs).reverse

/-- Numeric value of a decimal digit character. -/
def dval (c : Char) : ℕ := c.toNat - 48

def isLeap (y : ℕ) : Bool := (y % 4 = 0 && y % 100 ≠ 0) || y % 400 = 0

def daysInMonth (y m : ℕ) : ℕ :=
  if m = 2 then (if isLeap y then 29 else 28)
  else if m = 4 ∨ m = 6 ∨ m = 9 ∨ m = 11 then 30
  else 31

/-- datetime.date(year, month, day): some date when the components form a
valid calendar date, none when the constructor would raise ValueError. -/
def mkDate (y m d : ℕ) : Option Ymd :=
  if 1 ≤ y ∧ y ≤ 9999 ∧ 1 ≤ m ∧ m ≤ 12 ∧ 1 ≤ d ∧ d ≤ daysInMonth y m then
    some ⟨y, m, d⟩
  else none

/-- Anchored prefix match of the YYYYMMDD pattern: the first eight characters
are digits (anything may follow, as re.match only anchors the start), and the
digits must form a valid date. -/
def match8 (s : List Char) : Option Ymd :=
  let t := s.take 8
  if t.length = 8 ∧ t.all Char.isDigit then
    mkDate
      (1000 * dval (t.getD 0 '0') + 100 * dval (t.getD 1 '0') +
        10 * dval (t.getD 2 '0') + dval (t.getD 3 '0'))
      (10 * dval (t.getD 4 '0') + dval (t.getD 5 '0'))
      (10 * dval (t.getD 6 '0') + dval (t.getD 7 '0'))
  else none

/-- Anchored prefix match of YYYY sep MM sep DD (sep is - or /). -/
def matchYsep (sep : Char) (s : List Char) : Option Ymd :=
  let t := s.take 10
  if t.length = 10 ∧
      (t.getD 0 ' ').isDigit ∧ (t.getD 1 ' ').isDigit ∧
      (t.getD 2 ' ').isDigit ∧ (t.getD 3 ' ').isDigit ∧
      t.getD 4 ' ' = sep ∧
      (t.getD 5 ' ').isDigit ∧ (t.getD 6 ' ').isDigit ∧
      t.getD 7 ' ' = sep ∧
      (t.getD 8 ' ').isDigit ∧ (t.getD 9 ' ').isDigit then
    mkDate
      (1000 * dval (t.getD 0 '0') + 100 * dval (t.getD 1 '0') +
        10 * dval (t.getD 2 '0') + dval (t.getD 3 '0'))
      (10 * dval (t.getD 5 '0') + dval (t.getD 6 '0'))
      (10 * dval (t.getD 8 '0') + dval (t.getD 9 '0'))
  else none

/-- Anchored prefix match of MM sep DD sep YYYY (sep is / or -). -/
def matchMsep (sep : Char) (s : List Char) : Option Ymd :=
  let t := s.take 10
  if t.length = 10 ∧
      (t.getD 0 ' ').isDigit ∧ (t.getD 1 ' ').isDigit ∧
      t.getD 2 ' ' = sep ∧
      (t.getD 3 ' ').isDigit ∧ (t.getD 4 ' ').isDigit ∧
      t.getD 5 ' ' = sep ∧
      (t.getD 6 ' ').isDigit ∧ (t.getD 7 ' ').isDigit ∧
      (t.getD 8 ' ').isDigit ∧ (t.getD 9 ' ').isDigit then
    mkDate
      (1000 * dval (t.getD 6 '0') + 100 * dval (t.getD 7 '0') +
        10 * dval (t.getD 8 '0') + dval (t.getD 9 '0'))
      (10 * dval (t.getD 0 '0') + dval (t.getD 1 '0'))
      (10 * dval (t.getD 3 '0') + dval (t.getD 4 '0'))
  else none

/-- The ordered pattern attempts of _parse_date_robust.  A pattern whose
regex does not match the prefix and a pattern whose matched digits raise
ValueError both make the loop continue with the next pattern, so both are
none here. -/
def tryPatterns (s : List Char) : Option Ymd :=
  match match8 s with
  | some d => some d
  | none =>
      match matchYsep '-' s with
      | some d => some d
      | none =>
          match matchMsep '/' s with
          | some d => some d
          | none =>
              match matchMsep '-' s with
              | some d => some d
              | none => matchYsep '/' s

/-- _parse_date_robust: empty or whitespace-only strings yield none; then the
stripped string is tried against the ordered patterns; only if all patterns
fail is the general-purpose parser (pd.to_datetime, a library boundary passed
as the fallback parameter) consulted. -/
def parse_date_robust (fallback : List Char → Option Ymd) (s : List Char) :
    Option Ymd :=
  let t := pyStrip s
  if t.isEmpty then none
  else
    match tryPatterns t with
    | some d => some d
    | none => fallback t

/-! ### FAERS ETL: normalized tables and build_events -/

/-- A normalized DEMO row, projected to the columns build_events uses. -/
structure DemoRow : Type where
  case_id : Option String
  sex : String
  age : Option ℚ
  country : Option String
  event_date : Option Ymd
deriving DecidableEq, Repr

structure ReacRow : Type where
  case_id : Option String
  reaction_pt : Option String
deriving DecidableEq, Repr

structure DrugRow : Type where
  case_id : Option String
  drug : Option String
deriving DecidableEq, Repr

structure OutcRow : Type where
  case_id : Option String
  serious : Bool
deriving DecidableEq, Repr

/-- A consolidated event row (columns in the final output order). -/
structure EventRow : Type where
  event_date : Option Ymd
  case_id : Option String
  drug : Option String
  reaction_pt : Option String
  sex : String
  age : Option ℚ
  country : Option String
  serious : Option Bool
deriving DecidableEq, Repr

/-- The dictionary of normalized tables handed to build_events; none means
the table is absent from the dictionary. -/
structure Tables : Type where
  demo : Option (List DemoRow)
  reac : Option (List ReacRow)
  drug : Option (List DrugRow)
  outc : Option (List OutcRow)

/-- Key-overlap statistics of _analyze_key_overlap. -/
structure OverlapStats : Type where
  leftCount : ℕ
  rightCount : ℕ
  overlapCount : ℕ
  leftOnly : ℕ
  rightOnly : ℕ
  overlapPercent : ℚ
deriving DecidableEq, Repr

/-- The de-duplicated non-null key set of a key column (set of dropna unique
values). -/
def keySet (ks : List (Option String)) : Finset String :=
  (ks.filterMap id).toFinset

/-- _analyze_key_overlap on the two key columns: set sizes, intersection and
differences, and the overlap percentage relative to the left side (0 for an
empty left key set). -/
def analyze_key_overlap (leftKeys rightKeys : List (Option String)) : OverlapStats :=
  let L := keySet leftKeys
  let R := keySet rightKeys
  { leftCount := L.card
    rightCount := R.card
    overlapCount := (L ∩ R).card
    leftOnly := (L \ R).card
    rightOnly := (R \ L).card
    overlapPercent := if L.card = 0 then 0 else ((L ∩ R).card : ℚ) / (L.card : ℚ) * 100 }

/-- The quantities _log_join_stats derives for an inner join: rows lost (an
integer, as an inner join over duplicated keys can gain rows) and the loss
percentage, 0 when the before-count is 0. -/
structure JoinDiag : Type where
  before : ℕ
  after : ℕ
  lost : ℤ
  lossPercent : ℚ
deriving DecidableEq, Repr

def log_join_stats_inner (before after : ℕ) : JoinDiag :=
  { before := before
    after := after
    lost := (before : ℤ) - (after : ℤ)
    lossPercent := if before = 0 then 0 else (((before : ℚ) - (after : ℚ)) / (before : ℚ)) * 100 }

/-- The severity class the inner-join branch of _log_join_stats logs. -/
def joinSeverity (d : JoinDiag) : String :=
  if 20 < d.lossPercent then "HIGH"
  else if 10 < d.lossPercent then "MODERATE"
  else if 0 < d.lost then "MINOR"
  else "PERFECT"

/-- Projection of a DEMO row onto the initial events table; the drug,
reaction and serious columns do not exist yet in the source at this point and
are carried here as none placeholders until their stage fills them. -/
def demoToEvent (d : DemoRow) : EventRow :=
  { event_date := d.event_date
    case_id := d.case_id
    drug := none
    reaction_pt := none
    sex := d.sex
    age := d.age
    country := d.country
    serious := none }

/-- Inner merge of the events with REAC on case_id: each event row is paired
with every matching reaction row (pandas matches missing keys to missing
keys, which Option equality reproduces); unmatched rows are dropped. -/
def innerJoinReac (reac : List ReacRow) : List EventRow → List EventRow
  | [] => []
  | e :: es =>
      ((reac.filter fun r => r.case_id = e.case_id).map
        fun r => { e with reaction_pt := r.reaction_pt }) ++ innerJoinReac reac es

/-- Left merge of the events with DRUG on case_id: every matching drug row
expands the event; an unmatched event is kept once with a missing drug. -/
def leftJoinDrug (drugs : List DrugRow) : List EventRow → List EventRow
  | [] => []
  | e :: es =>
      (let ms := drugs.filter fun r => r.case_id = e.case_id
       if ms.isEmpty then [{ e with drug := none }]
       else ms.map fun r => { e with drug := r.drug }) ++ leftJoinDrug drugs es

/-- The DRUG stage of build_events: left join when a non-empty drug table is
present, otherwise the sentinel UNKNOWN for every row. -/
def drugStage (drugTable : Option (List DrugRow)) (evs : List EventRow) :
    List EventRow :=
  match drugTable with
  | some ds =>
      if ds.isEmpty then evs.map fun e => { e with drug := some "UNKNOWN" }
      else leftJoinDrug ds evs
  | none => evs.map fun e => { e with drug := some "UNKNOWN" }

/-- Most serious outcome for one case: groupby case_id, max of the boolean
serious flags (logical or). -/
def maxSerious (os : List OutcRow) (c : String) : Bool :=
  (os.filter fun r => r.case_id = some c).any fun r => r.serious

/-- The OUTC stage of build_events.  With a non-empty outcomes table the
collapsed per-case outcome is left-joined on case_id (the groupby drops
missing keys, so the right side has one row per non-null case and the join
preserves row count); an unmatched event keeps a missing serious value.
Only when no outcomes table contributed a serious column at all is the
column created as all-false. -/
def outcStage (outcTable : Option (List OutcRow)) (evs : List EventRow) :
    List EventRow :=
  match outcTable with
  | some os =>
      if os.isEmpty then evs.map fun e => { e with serious := some false }
      else
        evs.map fun e =>
          match e.case_id with
          | some c =>
              if os.any fun r => r.case_id = some c then
                { e with serious := some (maxSerious os c) }
              else { e with serious := none }
          | none => { e with serious := none }
  | none => evs.map fun e => { e with serious := some false }

/-- The deduplication key of the final cleanup: the
(case_id, drug, reaction_pt, event_date) tuple. -/
def evKey (e : EventRow) : Option String × Option String × Option String × Option Ymd :=
  (e.case_id, e.drug, e.reaction_pt, e.event_date)

/-- The result of build_events: the overlap diagnostic computed before the
mandatory join, the join diagnostic of the mandatory join, and the final
events.  The diagnostics are none exactly when a mandatory table is missing
and the function returns an empty frame without joining. -/
structure BuildResult : Type where
  overlap : Option OverlapStats
  joinDiag : Option JoinDiag
  events : List EventRow

/-- build_events: demographics inner-joined with reactions (after the key
overlap analysis of the two input key columns), optionally enriched with
drugs and outcomes, rows with null case_id or reaction dropped, and exact
duplicate (case_id, drug, reaction_pt, event_date) tuples removed keeping
the first. -/
def build_events (t : Tables) : BuildResult :=
  match t.demo, t.reac with
  | some demo, some reac =>
      let evs0 := demo.map demoToEvent
      let stats := analyze_key_overlap (evs0.map EventRow.case_id) (reac.map ReacRow.case_id)
      let evs1 := innerJoinReac reac evs0
      let diag := log_join_stats_inner evs0.length evs1.length
      let evs2 := drugStage t.drug evs1
      let evs3 := outcStage t.outc evs2
      let evs4 := evs3.filter fun e => e.case_id.isSome && e.reaction_pt.isSome
      let evs5 := dedupByKey evKey evs4
      { overlap := some stats, joinDiag := some diag, events := evs5 }
  | _, _ => { overlap := none, joinDiag := none, events := [] }

/-- Cross-quarter concatenation and global deduplication of
process_faers_data: each quarter's events are tagged with the quarter name,
concatenated, and deduplicated on the same four-column subset. -/
def concat_quarters_dedup (quarters : List (String × List EventRow)) :
    List (EventRow × String) :=
  dedupByKey (fun p => evKey p.1)
    ((quarters.map fun q => q.2.map fun e => (e, q.1)).flatten)

/-- Rendering of a percentage to one decimal place, as the %.1f log format
does (round half away from zero; the percentages involved are never exact
halves of a tenth, so this matches the float formatting). -/
def roundTo1 (q : ℚ) : ℚ := ((round (10 * q) : ℤ) : ℚ) / 10

/-! ### Concrete instances used by the theorems below -/

/-- An environment with neither statsmodels nor Prophet installed. -/
def capsAbsent : Caps := ⟨fun _ => .missing, fun _ => .missing⟩

/-- A loaded monthly counts table of 12 consecutive months, value 5 each. -/
def monthly12 : Series := (List.range 12).map fun i => (i, 5)

/-- Scenario A of the spec: a DEMO table keyed A, B, C. -/
def demoABC : List DemoRow :=
  [⟨some "A", "UNK", none, none, none⟩,
   ⟨some "B", "UNK", none, none, none⟩,
   ⟨some "C", "UNK", none, none, none⟩]

/-- Scenario A of the spec: a REAC table keyed A, B, X. -/
def reacABX : List ReacRow :=
  [⟨some "A", some "NAUSEA"⟩, ⟨some "B", some "RASH"⟩, ⟨some "X", some "HEADACHE"⟩]

/-- Scenario A table dictionary: DEMO and REAC present, DRUG and OUTC absent. -/
def tablesABC : Tables := ⟨some demoABC, some reacABX, none, none⟩

/-- One demographic row whose case has two reaction rows: the mandatory inner
join then produces more rows than it starts from. -/
def tablesDupReac : Tables :=
  ⟨some [⟨some "A", "UNK", none, none, none⟩],
   some [⟨some "A", some "R1"⟩, ⟨some "A", some "R2"⟩], none, none⟩

/-- A non-empty outcomes table whose only case matches no demographic row. -/
def outcZ : List OutcRow := [⟨some "Z", true⟩]

/-- Scenario A tables with the unmatched outcomes table present. -/
def tablesOutc : Tables := ⟨some demoABC, some reacABX, none, some outcZ⟩

/-! ## Supporting lemmas -/

theorem dedupByKeyAux_subset {α κ : Type} [DecidableEq κ] (key : α → κ) :
    ∀ (l : List α) (seen : List κ) (a : α), a ∈ dedupByKeyAux key seen l → a ∈ l := by
  intro l
  induction l with
  | nil => intro seen a h; simp [dedupByKeyAux] at h
  | cons x xs ih =>
      intro seen a h
      by_cases hx : key x ∈ seen
      · simp only [dedupByKeyAux, if_pos hx] at h
        exact List.mem_cons_of_mem _ (ih _ _ h)
      · simp only [dedupByKeyAux, if_neg hx, List.mem_cons] at h
        rcases h with h | h
        · exact h ▸ List.mem_cons_self _ _
        · exact List.mem_cons_of_mem _ (ih _ _ h)

theorem dedupByKeyAux_not_seen {α κ : Type} [DecidableEq κ] (key : α → κ) :
    ∀ (l : List α) (seen : List κ) (a : α), a ∈ dedupByKeyAux key seen l →
      key a ∉ seen := by
  intro l
  induction l with
  | nil => intro seen a h; simp [dedupByKeyAux] at h
  | cons x xs ih =>
      intro seen a h
      by_cases hx : key x ∈ seen
      · simp only [dedupByKeyAux, if_pos hx] at h
        exact ih _ _ h
      · simp only [dedupByKeyAux, if_neg hx, List.mem_cons] at h
        rcases h with h | h
        · exact h ▸ hx
        · intro hs
          exact ih _ _ h (List.mem_cons_of_mem _ hs)

theorem dedupByKeyAux_keys_nodup {α κ : Type} [DecidableEq κ] (key : α → κ) :
    ∀ (l : List α) (seen : List κ), ((dedupByKeyAux key seen l).map key).Nodup := by
  intro l
  induction l with
  | nil => intro seen; simp [dedupByKeyAux]
  | cons x xs ih =>
      intro seen
      by_cases hx : key x ∈ seen
      · simpa only [dedupByKeyAux, if_pos hx] using ih seen
      · simp only [dedupByKeyAux, if_neg hx, List.map_cons, List.nodup_cons]
        refine ⟨?_, ih _⟩
        intro hmem
        rcases List.mem_map.mp hmem with ⟨a, ha, hk⟩
        exact dedupByKeyAux_not_seen key xs _ a ha
          (hk ▸ List.mem_cons_self _ _)

theorem dedupByKey_subset {α κ : Type} [DecidableEq κ] (key : α → κ)
    (l : List α) (a : α) (h : a ∈ dedupByKey key l) : a ∈ l :=
  dedupByKeyAux_subset key l [] a h

theorem dedupByKey_keys_nodup {α κ : Type} [DecidableEq κ] (key : α → κ)
    (l : List α) : ((dedupByKey key l).map key).Nodup :=
  dedupByKeyAux_keys_nodup key l []

theorem isEmpty_false_of_ne_nil {α : Type} {l : List α} (h : l ≠ []) :
    l.isEmpty = false := by
  cases l with
  | nil => exact absurd rfl h
  | cons a l => rfl

/-! ## Claim C2 -/

/-- C2: the claim says that when the requested method is stl and the loaded
monthly series has length in [2, 24), the returned note states that a
fallback to the rolling Z-score occurred.  The code instead returns the note
"No anomalies detected using stl method" on such input: detect_anomalies
hands back the empty frame stl_spikes produces for a short series instead of
falling back, so the fallback-note branch of the summarizer (which tests
exactly method = stl and length < 24) is unreachable.  This theorem evaluates
the summarizer at a 12-month table with method stl. -/
theorem C2_note_at_failing_input :
    summarize_top_spikes_overall capsAbsent monthly12 "stl" 3 =
      { method := "stl", n_months := 12, top_spikes := [],
        note := "No anomalies detected using stl method" } := by
  rfl

/-! ## Claim C1 -/

/-- C1 counterexample: on a 12-month series, detect_anomalies with method stl
and defaults returns the empty STL frame (0 rows, 6 STL columns) while method
rolling_z returns 12 rows with the 5 rolling columns, so the claimed fallback
does not happen and the shapes (row counts and column lists) differ. -/
theorem C1_counterexample :
    (detect_anomalies capsAbsent monthly12 "stl").rows.length = 0 ∧
    (detect_anomalies capsAbsent monthly12 "rolling_z").rows.length = 12 ∧
    (detect_anomalies capsAbsent monthly12 "stl").columns ≠
      (detect_anomalies capsAbsent monthly12 "rolling_z").columns :=
  ⟨rfl, rfl, by decide⟩

/-- C1 (amended): on a non-empty series shorter than 24 months,
detect_anomalies with method stl and default parameters returns the
explicitly empty STL result (no rows, the six STL columns) without invoking
the rolling fallback, whatever the installed capabilities are; the rolling_z
method instead returns one row per month as soon as the series reaches the
default window of 6, so the two shapes differ. -/
theorem C1_stl_short_returns_empty (caps : Caps) (s : Series)
    (hne : s ≠ []) (hlt : s.length < 24) :
    detect_anomalies caps s "stl" = ⟨stlCols, []⟩ ∧
    (6 ≤ s.length → (detect_anomalies caps s "rolling_z").rows.length = s.length) := by
  have hie : s.isEmpty = false := isEmpty_false_of_ne_nil hne
  have hstl : stl_spikes caps.stl s 12 (5 / 2) = .ok ⟨stlCols, []⟩ := by
    simp [stl_spikes, hie, hlt]
  have hm1 : lowerStr "stl" = "stl" := rfl
  have hm2 : lowerStr "rolling_z" = "rolling_z" := rfl
  have hne2 : ("rolling_z" : String) ≠ "stl" := by decide
  constructor
  · simp [detect_anomalies, hie, hstl, hm1]
  · intro h6
    have hguard : (s.length < 6) = False := by
      simp [Nat.not_lt.mpr h6]
    simp [detect_anomalies, hie, rolling_zscore, hguard, rollingRows, hm2, hne2]

/-- C1 witness: the amended statement instantiated at the 12-month series in
an environment without statsmodels. -/
theorem C1_stl_short_returns_empty_witness :
    monthly12 ≠ [] ∧ monthly12.length < 24 ∧
      (detect_anomalies capsAbsent monthly12 "stl" = ⟨stlCols, []⟩ ∧
        (6 ≤ monthly12.length →
          (detect_anomalies capsAbsent monthly12 "rolling_z").rows.length =
            monthly12.length)) :=
  ⟨by decide, by decide,
    C1_stl_short_returns_empty capsAbsent monthly12 (by decide) (by decide)⟩

/-! ## build_events stage lemmas -/

theorem mem_outcStage {o : Option (List OutcRow)} {evs : List EventRow} {e : EventRow}
    (h : e ∈ outcStage o evs) : ∃ e2 ∈ evs, ∃ sv, e = { e2 with serious := sv } := by
  cases o with
  | none =>
      simp only [outcStage] at h
      rcases List.mem_map.mp h with ⟨e2, he2, rfl⟩
      exact ⟨e2, he2, some false, rfl⟩
  | some os =>
      by_cases hos : os.isEmpty
      · simp only [outcStage, if_pos hos] at h
        rcases List.mem_map.mp h with ⟨e2, he2, rfl⟩
        exact ⟨e2, he2, some false, rfl⟩
      · simp only [outcStage, if_neg hos] at h
        rcases List.mem_map.mp h with ⟨e2, he2, heq⟩
        refine ⟨e2, he2, ?_⟩
        cases hc : e2.case_id with
        | none =>
            refine ⟨none, ?_⟩
            rw [← heq]
            simp [hc]
        | some c =>
            by_cases hany : (os.any fun r => r.case_id = some c) = true
            · refine ⟨some (maxSerious os c), ?_⟩
              rw [← heq]
              simp [hc, hany]
            · refine ⟨none, ?_⟩
              rw [← heq]
              simp [hc, hany]

theorem drugStage_absent_length {dt : Option (List DrugRow)}
    (hdt : dt = none ∨ dt = some []) (evs : List EventRow) :
    (drugStage dt evs).length = evs.length := by
  rcases hdt with rfl | rfl
  · simp [drugStage]
  · simp [drugStage]

theorem mem_drugStage_absent {dt : Option (List DrugRow)}
    (hdt : dt = none ∨ dt = some []) {evs : List EventRow} {e : EventRow}
    (h : e ∈ drugStage dt evs) : e.drug = some "UNKNOWN" := by
  rcases hdt with rfl | rfl
  · simp only [drugStage] at h
    rcases List.mem_map.mp h with ⟨e2, _, rfl⟩
    rfl
  · simp only [drugStage, List.isEmpty_nil, if_pos] at h
    rcases List.mem_map.mp h with ⟨e2, _, rfl⟩
    rfl

/-! ## Claim C4 -/

/-- C4: for every input table dictionary, the returned event set has no row
with a missing case_id or reaction term, and its
(case_id, drug, reaction_pt, event_date) key tuples are pairwise distinct;
the cross-quarter concatenation deduplicated on the same key is likewise
free of duplicate tuples. -/
theorem C4_event_tuple_unique (t : Tables) :
    (∀ e ∈ (build_events t).events, e.case_id ≠ none ∧ e.reaction_pt ≠ none) ∧
    (((build_events t).events.map evKey).Nodup) ∧
    (∀ quarters : List (String × List EventRow),
      ((concat_quarters_dedup quarters).map fun p => evKey p.1).Nodup) := by
  obtain ⟨od, orc, odg, ooc⟩ := t
  refine ⟨?_, ?_, ?_⟩
  · cases od with
    | none => intro e he; simp [build_events] at he
    | some demo =>
        cases orc with
        | none => intro e he; simp [build_events] at he
        | some reac =>
            intro e he
            simp only [build_events] at he
            have h4 := dedupByKey_subset evKey _ e he
            have hp := (List.mem_filter.mp h4).2
            rw [Bool.and_eq_true] at hp
            exact ⟨Option.isSome_iff_ne_none.mp hp.1,
              Option.isSome_iff_ne_none.mp hp.2⟩
  · cases od with
    | none => simp [build_events]
    | some demo =>
        cases orc with
        | none => simp [build_events]
        | some reac =>
            simp only [build_events]
            exact dedupByKey_keys_nodup evKey _
  · intro quarters
    exact dedupByKey_keys_nodup _ _

/-! ## Claim C8 -/

/-- C8: when the drug table is absent (or present but empty), every final
event carries the sentinel drug UNKNOWN, and the drug stage preserves the
row count (no rows are dropped because of the missing table). -/
theorem C8_missing_drug_table (t : Tables) (hdt : t.drug = none ∨ t.drug = some []) :
    (∀ e ∈ (build_events t).events, e.drug = some "UNKNOWN") ∧
    (∀ evs : List EventRow, (drugStage t.drug evs).length = evs.length) := by
  obtain ⟨od, orc, odg, ooc⟩ := t
  refine ⟨?_, fun evs => drugStage_absent_length hdt evs⟩
  cases od with
  | none => intro e he; simp [build_events] at he
  | some demo =>
      cases orc with
      | none => intro e he; simp [build_events] at he
      | some reac =>
          intro e he
          simp only [build_events] at he
          have h4 := dedupByKey_subset evKey _ e he
          have h3 : e ∈ outcStage ooc (drugStage odg (innerJoinReac reac (demo.map demoToEvent))) :=
            (List.mem_filter.mp h4).1
          rcases mem_outcStage h3 with ⟨e2, he2, sv, rfl⟩
          have h2 : e2.drug = some "UNKNOWN" :=
            mem_drugStage_absent (by simpa using hdt) he2
          simpa using h2

/-- C4 witness: the invariants at the scenario A tables. -/
theorem C4_event_tuple_unique_witness :
    (∀ e ∈ (build_events tablesABC).events, e.case_id ≠ none ∧ e.reaction_pt ≠ none) ∧
    (((build_events tablesABC).events.map evKey).Nodup) ∧
    (∀ quarters : List (String × List EventRow),
      ((concat_quarters_dedup quarters).map fun p => evKey p.1).Nodup) :=
  C4_event_tuple_unique tablesABC

/-- C8 witness: scenario A has no drug table. -/
theorem C8_missing_drug_table_witness :
    (tablesABC.drug = none ∨ tablesABC.drug = some []) ∧
    ((∀ e ∈ (build_events tablesABC).events, e.drug = some "UNKNOWN") ∧
      (∀ evs : List EventRow, (drugStage tablesABC.drug evs).length = evs.length)) :=
  ⟨Or.inl rfl, C8_missing_drug_table tablesABC (Or.inl rfl)⟩

/-! ## Claim C9 -/

/-- C9: with a non-empty outcomes table present, an event whose case_id
matches no outcome row keeps a missing serious value after the left join;
the all-false default is applied only when the outcomes table is absent or
empty (so that no serious column exists before the default). -/
theorem C9_outcomes_left_join (t : Tables) (os : List OutcRow) :
    (t.outc = some os → os ≠ [] →
      ∀ e ∈ (build_events t).events,
        (∀ r ∈ os, r.case_id ≠ e.case_id) → e.serious = none) ∧
    ((t.outc = none ∨ t.outc = some []) →
      ∀ e ∈ (build_events t).events, e.serious = some false) := by
  obtain ⟨od, orc, odg, ooc⟩ := t
  constructor
  · intro hto hosne e he hno
    cases od with
    | none => simp [build_events] at he
    | some demo =>
        cases orc with
        | none => simp [build_events] at he
        | some reac =>
            simp only at hto
            subst hto
            simp only [build_events] at he
            have h4 := dedupByKey_subset evKey _ e he
            have h3 : e ∈ outcStage (some os)
                (drugStage odg (innerJoinReac reac (demo.map demoToEvent))) :=
              (List.mem_filter.mp h4).1
            have hos : os.isEmpty = false := isEmpty_false_of_ne_nil hosne
            simp only [outcStage, hos, Bool.false_eq_true, if_false] at h3
            rcases List.mem_map.mp h3 with ⟨e2, he2, heq⟩
            cases hc : e2.case_id with
            | none =>
                rw [← heq]
                simp [hc]
            | some c =>
                by_cases hany : (os.any fun r => r.case_id = some c) = true
                · exfalso
                  rcases List.any_eq_true.mp hany with ⟨r, hr, hrc⟩
                  have hec : e.case_id = some c := by
                    rw [← heq]
                    simp only [hc]
                    by_cases h2 : (os.any fun r => r.case_id = some c) = true
                    · simp [h2]
                    · simp [h2]
                  exact hno r hr (by rw [hec]; exact of_decide_eq_true hrc)
                · rw [← heq]
                  simp [hc, hany]
  · intro habs e he
    cases od with
    | none => simp [build_events] at he
    | some demo =>
        cases orc with
        | none => simp [build_events] at he
        | some reac =>
            simp only [build_events] at he
            have h4 := dedupByKey_subset evKey _ e he
            have h3 : e ∈ outcStage ooc
                (drugStage odg (innerJoinReac reac (demo.map demoToEvent))) :=
              (List.mem_filter.mp h4).1
            simp only at habs
            rcases habs with rfl | rfl
            · simp only [outcStage] at h3
              rcases List.mem_map.mp h3 with ⟨e2, _, rfl⟩
              rfl
            · simp only [outcStage, List.isEmpty_nil, if_pos] at h3
              rcases List.mem_map.mp h3 with ⟨e2, _, rfl⟩
              rfl

/-- C9 witness: with the unmatched outcomes table, every final event of
scenario A keeps a missing serious value; without any outcomes table, every
final event gets the all-false default. -/
theorem C9_outcomes_left_join_witness :
    tablesOutc.outc = some outcZ ∧ outcZ ≠ [] ∧
    (∀ e ∈ (build_events tablesOutc).events,
      (∀ r ∈ outcZ, r.case_id ≠ e.case_id) → e.serious = none) ∧
    ((tablesABC.outc = none ∨ tablesABC.outc = some []) →
      ∀ e ∈ (build_events tablesABC).events, e.serious = some false) :=
  ⟨rfl, by decide, (C9_outcomes_left_join tablesOutc outcZ).1 rfl (by decide),
    (C9_outcomes_left_join tablesABC outcZ).2⟩

/-! ## Claim C7 -/

theorem filter_eq_length_le_one {α κ : Type} [DecidableEq κ] (f : α → κ) :
    ∀ l : List α, (l.map f).Nodup → ∀ k : κ,
      (l.filter fun r => f r = k).length ≤ 1 := by
  intro l
  induction l with
  | nil => intro _ k; simp
  | cons a l ih =>
      intro h k
      simp only [List.map_cons, List.nodup_cons] at h
      by_cases hk : f a = k
      · rw [List.filter_cons, if_pos (by simpa using hk)]
        have hnil : (l.filter fun r => f r = k) = [] := by
          rw [List.filter_eq_nil_iff]
          intro b hb hfb
          exact h.1 (List.mem_map.mpr ⟨b, hb, by
            have := of_decide_eq_true hfb
            rw [this, hk]⟩)
        rw [hnil]
        simp
      · rw [List.filter_cons, if_neg (by simpa using hk)]
        exact ih h.2 k

theorem innerJoinReac_length_le (reac : List ReacRow)
    (h : (reac.map ReacRow.case_id).Nodup) :
    ∀ evs : List EventRow, (innerJoinReac reac evs).length ≤ evs.length := by
  intro evs
  induction evs with
  | nil => simp [innerJoinReac]
  | cons e es ih =>
      have h1 := filter_eq_length_le_one ReacRow.case_id reac h e.case_id
      simp only [innerJoinReac, List.length_append, List.length_map, List.length_cons]
      omega

/-- C7 counterexample: with one demographic row whose case has two reaction
rows, the mandatory inner join reports before = 1 and after = 2, so the
after-count exceeds the before-count and the reported loss percentage is
negative, contradicting the claim that after is at most before. -/
theorem C7_counterexample :
    (build_events tablesDupReac).joinDiag.map JoinDiag.before = some 1 ∧
    (build_events tablesDupReac).joinDiag.map JoinDiag.after = some 2 ∧
    (build_events tablesDupReac).joinDiag.map JoinDiag.lossPercent = some (-100) := by
  refine ⟨rfl, rfl, ?_⟩
  have h : (build_events tablesDupReac).joinDiag.map JoinDiag.lossPercent =
      some ((((1 : ℕ) : ℚ) - ((2 : ℕ) : ℚ)) / ((1 : ℕ) : ℚ) * 100) := rfl
  rw [h]
  norm_num

/-- C7 (amended): the mandatory inner join always reports
loss_percent = 100 * (before - after) / before, with 0 when before = 0, but
the loss can be negative: after is at most before only under the additional
assumption that the reaction table has no duplicated case keys (each
demographic row then matches at most one reaction row). -/
theorem C7_inner_join_loss (t : Tables) (demo : List DemoRow) (reac : List ReacRow)
    (hd : t.demo = some demo) (hr : t.reac = some reac) :
    ∃ d : JoinDiag, (build_events t).joinDiag = some d ∧
      d.lossPercent =
        (if d.before = 0 then 0
         else 100 * (((d.before : ℚ) - (d.after : ℚ)) / (d.before : ℚ))) ∧
      ((reac.map ReacRow.case_id).Nodup → d.after ≤ d.before) := by
  obtain ⟨od, orc, odg, ooc⟩ := t
  simp only at hd hr
  subst hd
  subst hr
  refine ⟨log_join_stats_inner (demo.map demoToEvent).length
      (innerJoinReac reac (demo.map demoToEvent)).length, ?_, ?_, ?_⟩
  · simp [build_events]
  · simp only [log_join_stats_inner]
    by_cases h0 : (demo.map demoToEvent).length = 0
    · simp [h0]
    · simp only [h0, if_false]
      ring
  · intro hnd
    simpa [log_join_stats_inner] using
      innerJoinReac_length_le reac hnd (demo.map demoToEvent)

/-- C7 witness: the amended statement at scenario A, whose reaction keys are
pairwise distinct. -/
theorem C7_inner_join_loss_witness :
    tablesABC.demo = some demoABC ∧ tablesABC.reac = some reacABX ∧
    (∃ d : JoinDiag, (build_events tablesABC).joinDiag = some d ∧
      d.lossPercent =
        (if d.before = 0 then 0
         else 100 * (((d.before : ℚ) - (d.after : ℚ)) / (d.before : ℚ))) ∧
      ((reacABX.map ReacRow.case_id).Nodup → d.after ≤ d.before)) :=
  ⟨rfl, rfl, C7_inner_join_loss tablesABC demoABC reacABX rfl rfl⟩

/-! ## Claim C3 -/

/-- C3: build_events computes the overlap diagnostic from the two input key
columns before (that is, independently of and prior to) the inner join; the
statistics are set statistics of the de-duplicated non-null key sets: the
intersection and one-sided counts partition each key set, and the overlap
percentage is 100 times the intersection size over the left key-set size,
0 for an empty left set.  On scenario A (DEMO keyed A, B, C and REAC keyed
A, B, X) the join yields 2 rows and the diagnostic reports overlap 2,
left-only 1, right-only 1 and percentage 200/3, rendered as 66.7. -/
theorem C3_overlap_before_join :
    (∀ (t : Tables) (demo : List DemoRow) (reac : List ReacRow),
        t.demo = some demo → t.reac = some reac →
        (build_events t).overlap =
          some (analyze_key_overlap (demo.map DemoRow.case_id)
            (reac.map ReacRow.case_id))) ∧
    (∀ L R : List (Option String),
        (analyze_key_overlap L R).overlapPercent =
          (if (analyze_key_overlap L R).leftCount = 0 then 0
           else 100 * ((analyze_key_overlap L R).overlapCount : ℚ) /
             ((analyze_key_overlap L R).leftCount : ℚ)) ∧
        (analyze_key_overlap L R).overlapCount + (analyze_key_overlap L R).leftOnly =
          (analyze_key_overlap L R).leftCount ∧
        (analyze_key_overlap L R).overlapCount + (analyze_key_overlap L R).rightOnly =
          (analyze_key_overlap L R).rightCount) ∧
    (build_events tablesABC).joinDiag.map JoinDiag.after = some 2 ∧
    (build_events tablesABC).events.length = 2 ∧
    (build_events tablesABC).overlap.map OverlapStats.overlapCount = some 2 ∧
    (build_events tablesABC).overlap.map OverlapStats.leftOnly = some 1 ∧
    (build_events tablesABC).overlap.map OverlapStats.rightOnly = some 1 ∧
    (build_events tablesABC).overlap.map OverlapStats.overlapPercent = some (200 / 3) ∧
    roundTo1 (200 / 3) = 667 / 10 := by
  refine ⟨?_, ?_, rfl, rfl, rfl, rfl, rfl, ?_, ?_⟩
  · intro t demo reac hd hr
    obtain ⟨od, orc, odg, ooc⟩ := t
    simp only at hd hr
    subst hd
    subst hr
    simp only [build_events, List.map_map]
    have hcomp : (EventRow.case_id ∘ demoToEvent) = DemoRow.case_id := by
      funext d
      rfl
    rw [hcomp]
  · intro L R
    refine ⟨?_, ?_, ?_⟩
    · simp only [analyze_key_overlap]
      by_cases h0 : (keySet L).card = 0
      · simp [h0]
      · simp only [h0, if_false]
        ring
    · simp only [analyze_key_overlap]
      exact Finset.card_inter_add_card_sdiff (keySet L) (keySet R)
    · have := Finset.card_inter_add_card_sdiff (keySet R) (keySet L)
      simpa [analyze_key_overlap, Finset.inter_comm] using this
  · have h : (build_events tablesABC).overlap.map OverlapStats.overlapPercent =
        some ((((2 : ℕ) : ℚ)) / (((3 : ℕ) : ℚ)) * 100) := rfl
    rw [h]
    norm_num
  · norm_num [roundTo1, round_eq]

/-- C3 witness: the overlap-linkage part of the statement, instantiated at
scenario A. -/
theorem C3_overlap_before_join_witness :
    tablesABC.demo = some demoABC ∧ tablesABC.reac = some reacABX ∧
    (build_events tablesABC).overlap =
      some (analyze_key_overlap (demoABC.map DemoRow.case_id)
        (reacABX.map ReacRow.case_id)) :=
  ⟨rfl, rfl, C3_overlap_before_join.1 tablesABC demoABC reacABX rfl rfl⟩

/-! ## Claim C5 -/

theorem foldl_min_le_init : ∀ (l : List ℕ) (a : ℕ), l.foldl min a ≤ a := by
  intro l
  induction l with
  | nil => intro a; simp
  | cons b l ih => intro a; exact le_trans (ih (min a b)) (min_le_left a b)

theorem foldl_min_le_mem : ∀ (l : List ℕ) (a x : ℕ), x ∈ l → l.foldl min a ≤ x := by
  intro l
  induction l with
  | nil => intro a x hx; simp at hx
  | cons b l ih =>
      intro a x hx
      rcases List.mem_cons.mp hx with rfl | hx
      · exact le_trans (foldl_min_le_init l (min a x)) (min_le_right a x)
      · exact ih (min a b) x hx

theorem foldl_min_mem : ∀ (l : List ℕ) (a : ℕ), l.foldl min a = a ∨ l.foldl min a ∈ l := by
  intro l
  induction l with
  | nil => intro a; simp
  | cons b l ih =>
      intro a
      rw [List.foldl_cons]
      rcases ih (min a b) with h | h
      · rcases min_choice a b with hm | hm
        · left; rw [h, hm]
        · right; rw [h, hm]; exact List.mem_cons_self _ _
      · right; exact List.mem_cons_of_mem _ h

theorem foldl_max_mem : ∀ (l : List ℕ) (a : ℕ), l.foldl max a = a ∨ l.foldl max a ∈ l := by
  intro l
  induction l with
  | nil => intro a; simp
  | cons b l ih =>
      intro a
      rw [List.foldl_cons]
      rcases ih (max a b) with h | h
      · rcases max_choice a b with hm | hm
        · left; rw [h, hm]
        · right; rw [h, hm]; exact List.mem_cons_self _ _
      · right; exact List.mem_cons_of_mem _ h

theorem le_foldl_max_init : ∀ (l : List ℕ) (a : ℕ), a ≤ l.foldl max a := by
  intro l
  induction l with
  | nil => intro a; simp
  | cons b l ih => intro a; exact le_trans (le_max_left a b) (ih (max a b))

theorem le_foldl_max_mem : ∀ (l : List ℕ) (a x : ℕ), x ∈ l → x ≤ l.foldl max a := by
  intro l
  induction l with
  | nil => intro a x hx; simp at hx
  | cons b l ih =>
      intro a x hx
      rcases List.mem_cons.mp hx with rfl | hx
      · exact le_trans (le_max_right a x) (le_foldl_max_init l (max a x))
      · exact ih (max a b) x hx

theorem monthSum_not_mem (pairs : Series) (m : ℕ) (h : m ∉ pairs.map Prod.fst) :
    monthSum pairs m = 0 := by
  unfold monthSum
  have hfil : (pairs.filter fun p => p.1 = m) = [] := by
    rw [List.filter_eq_nil_iff]
    intro q hq hqm
    exact h (List.mem_map.mpr ⟨q, hq, of_decide_eq_true hqm⟩)
  rw [hfil]
  rfl

/-- C5: on a non-empty input, ensure_monthly_index returns exactly one entry
per month from the minimum observed month to the maximum observed month with
no gaps; each entry carries the sum of the input values of its month, months
absent from the input carry 0, and the sum over those filled months is 0. -/
theorem C5_monthly_index (pairs : Series) (hne : pairs ≠ []) :
    ∃ lo hi : ℕ,
      lo ∈ pairs.map Prod.fst ∧ hi ∈ pairs.map Prod.fst ∧
      (∀ m ∈ pairs.map Prod.fst, lo ≤ m ∧ m ≤ hi) ∧
      (ensure_monthly_index pairs).map Prod.fst =
        (List.range (hi + 1 - lo)).map (fun k => lo + k) ∧
      (∀ mv ∈ ensure_monthly_index pairs, mv.2 = monthSum pairs mv.1) ∧
      (∀ m : ℕ, lo ≤ m → m ≤ hi →
        (m, monthSum pairs m) ∈ ensure_monthly_index pairs) ∧
      (∀ mv ∈ ensure_monthly_index pairs, mv.1 ∉ pairs.map Prod.fst → mv.2 = 0) ∧
      (((ensure_monthly_index pairs).filter
          fun mv => mv.1 ∉ pairs.map Prod.fst).map Prod.snd).sum = 0 := by
  cases pairs with
  | nil => exact absurd rfl hne
  | cons p ps =>
      have hemi : ensure_monthly_index (p :: ps) =
          (List.range ((ps.map Prod.fst).foldl max p.1 + 1 -
              (ps.map Prod.fst).foldl min p.1)).map
            (fun k => ((ps.map Prod.fst).foldl min p.1 + k,
              monthSum (p :: ps) ((ps.map Prod.fst).foldl min p.1 + k))) := rfl
      have hval : ∀ mv ∈ ensure_monthly_index (p :: ps),
          mv.2 = monthSum (p :: ps) mv.1 := by
        intro mv hmv
        rw [hemi] at hmv
        rcases List.mem_map.mp hmv with ⟨k, _, rfl⟩
        rfl
      refine ⟨(ps.map Prod.fst).foldl min p.1, (ps.map Prod.fst).foldl max p.1,
        ?_, ?_, ?_, ?_, hval, ?_, ?_, ?_⟩
      · rcases foldl_min_mem (ps.map Prod.fst) p.1 with h | h
        · rw [h]; simp
        · simp only [List.map_cons, List.mem_cons]
          exact Or.inr h
      · rcases foldl_max_mem (ps.map Prod.fst) p.1 with h | h
        · rw [h]; simp
        · simp only [List.map_cons, List.mem_cons]
          exact Or.inr h
      · intro m hm
        simp only [List.map_cons, List.mem_cons] at hm
        rcases hm with rfl | hm
        · exact ⟨foldl_min_le_init _ _, le_foldl_max_init _ _⟩
        · exact ⟨foldl_min_le_mem _ _ _ hm, le_foldl_max_mem _ _ _ hm⟩
      · rw [hemi, List.map_map]
        rfl
      · intro m hlom hmhi
        rw [hemi]
        refine List.mem_map.mpr ⟨m - (ps.map Prod.fst).foldl min p.1,
          List.mem_range.mpr (by omega), ?_⟩
        have hm : (ps.map Prod.fst).foldl min p.1 +
            (m - (ps.map Prod.fst).foldl min p.1) = m := by omega
        rw [hm]
      · intro mv hmv hni
        rw [hval mv hmv]
        exact monthSum_not_mem _ _ hni
      · apply List.sum_eq_zero
        intro x hx
        rcases List.mem_map.mp hx with ⟨mv, hmv, rfl⟩
        have hmem := List.mem_filter.mp hmv
        have hni : mv.1 ∉ (p :: ps).map Prod.fst := of_decide_eq_true hmem.2
        rw [hval mv hmem.1]
        exact monthSum_not_mem _ _ hni

/-- C5 witness: the statement instantiated at a concrete sparse input with a
duplicated month and a gap. -/
theorem C5_monthly_index_witness :
    ([(3, (5 : ℚ)), (6, 2), (3, 1)] : Series) ≠ [] ∧
    (∃ lo hi : ℕ,
      lo ∈ ([(3, (5 : ℚ)), (6, 2), (3, 1)] : Series).map Prod.fst ∧
      hi ∈ ([(3, (5 : ℚ)), (6, 2), (3, 1)] : Series).map Prod.fst ∧
      (∀ m ∈ ([(3, (5 : ℚ)), (6, 2), (3, 1)] : Series).map Prod.fst,
        lo ≤ m ∧ m ≤ hi) ∧
      (ensure_monthly_index [(3, 5), (6, 2), (3, 1)]).map Prod.fst =
        (List.range (hi + 1 - lo)).map (fun k => lo + k) ∧
      (∀ mv ∈ ensure_monthly_index [(3, 5), (6, 2), (3, 1)],
        mv.2 = monthSum [(3, 5), (6, 2), (3, 1)] mv.1) ∧
      (∀ m : ℕ, lo ≤ m → m ≤ hi →
        (m, monthSum [(3, 5), (6, 2), (3, 1)] m) ∈
          ensure_monthly_index [(3, 5), (6, 2), (3, 1)]) ∧
      (∀ mv ∈ ensure_monthly_index [(3, 5), (6, 2), (3, 1)],
        mv.1 ∉ ([(3, (5 : ℚ)), (6, 2), (3, 1)] : Series).map Prod.fst → mv.2 = 0) ∧
      (((ensure_monthly_index [(3, 5), (6, 2), (3, 1)]).filter
          fun mv => mv.1 ∉ ([(3, (5 : ℚ)), (6, 2), (3, 1)] : Series).map Prod.fst).map
        Prod.snd).sum = 0) :=
  ⟨by decide, C5_monthly_index [(3, 5), (6, 2), (3, 1)] (by decide)⟩

/-! ## Claim C6 -/

theorem rollingRowAt_const (n w : ℕ) (c t : ℚ) (i : ℕ)
    (hi : i < n) (hw : 1 ≤ w) (ht : 0 < t) :
    rollingRowAt (List.replicate n c) w t i = ⟨c, c, 0, 0, false⟩ := by
  have hx : (List.replicate n c).getD i 0 = c := by
    rw [List.getD_eq_getElem _ _ (by simpa using hi)]
    simp
  have hwin : ((List.replicate n c).take (i + 1)).drop (i + 1 - w) =
      List.replicate (min (i + 1) n - (i + 1 - w)) c := by
    rw [List.take_replicate, List.drop_replicate]
  have hk1 : 1 ≤ min (i + 1) n - (i + 1 - w) := by omega
  have hkQ : ((min (i + 1) n - (i + 1 - w) : ℕ) : ℚ) ≠ 0 := by
    have hk0 : min (i + 1) n - (i + 1 - w) ≠ 0 := by omega
    exact_mod_cast hk0
  unfold rollingRowAt
  rw [hx, hwin]
  simp only [List.length_replicate]
  have hsum : (List.replicate (min (i + 1) n - (i + 1 - w)) c).sum =
      ((min (i + 1) n - (i + 1 - w) : ℕ) : ℚ) * c := by
    rw [List.sum_replicate]
    simp [nsmul_eq_mul]
  rw [hsum]
  have hmean : ((min (i + 1) n - (i + 1 - w) : ℕ) : ℚ) * c /
      ((min (i + 1) n - (i + 1 - w) : ℕ) : ℚ) = c := by
    field_simp
  rw [hmean]
  have hmap : (List.replicate (min (i + 1) n - (i + 1 - w)) c).map
      (fun v => (v - c) ^ 2) = List.replicate (min (i + 1) n - (i + 1 - w)) (0 : ℚ) := by
    rw [List.map_replicate]
    simp
  rw [hmap]
  have hzsum : (List.replicate (min (i + 1) n - (i + 1 - w)) (0 : ℚ)).sum = 0 := by
    rw [List.sum_replicate]
    simp
  rw [hzsum]
  have hspike : (if t < 0 then true else decide (t ^ 2 < |(0 : ℚ)|)) = false := by
    rw [if_neg (not_lt.mpr ht.le), abs_zero]
    exact decide_eq_false (not_lt.mpr (sq_nonneg t))
  by_cases hk : min (i + 1) n - (i + 1 - w) ≤ 1
  · simp only [hk, if_true, Option.getD_none, zero_div]
    rw [RollingRow.mk.injEq]
    exact ⟨rfl, rfl, rfl, rfl, hspike⟩
  · simp only [hk, if_false, Option.getD_some, zero_div]
    rw [RollingRow.mk.injEq]
    refine ⟨rfl, rfl, rfl, by simp, ?_⟩
    simpa using hspike

theorem rollingRowAt_z_zero (vals : List ℚ) (w : ℕ) (t : ℚ) (i : ℕ)
    (h : (rollingRowAt vals w t i).stdSq = 0) :
    (rollingRowAt vals w t i).zSq = 0 := by
  unfold rollingRowAt at h ⊢
  by_cases hk : ((vals.take (i + 1)).drop (i + 1 - w)).length ≤ 1
  · simp only [hk, if_true]
  · simp only [hk, if_false, Option.getD_some] at h
    simp only [hk, if_false, h, if_true]

/-- C6: on a constant series of any length n at least the window w (with
w at least 1, as pandas requires) and any threshold t greater than 0, the
rolling Z-score detector returns, for every point, mean equal to the value,
a zero std, a zero z-score and no spike flag; and in general, whenever a
point's rolling std is 0 or undefined (both stored as a zero stdSq), its
z-score is forced to 0. -/
theorem C6_constant_series (c t : ℚ) (n w : ℕ)
    (hw : 1 ≤ w) (hwn : w ≤ n) (ht : 0 < t) :
    rolling_zscore ((List.range n).map fun i => (i, c)) w t =
      ⟨rollingCols, List.replicate n (RollingRow.cells ⟨c, c, 0, 0, false⟩)⟩ ∧
    (∀ (s : Series) (w2 : ℕ) (t2 : ℚ) (r : RollingRow),
      r ∈ rollingRows s w2 t2 → r.stdSq = 0 → r.zSq = 0) := by
  constructor
  · have hlen : ((List.range n).map fun i => (i, c) : Series).length = n := by
      simp
    have hne : ((List.range n).map fun i => (i, c) : Series) ≠ [] := by
      intro hnil
      rw [hnil] at hlen
      simp at hlen
      omega
    have hie : ((List.range n).map fun i => (i, c) : Series).isEmpty = false :=
      isEmpty_false_of_ne_nil hne
    have hvals : (((List.range n).map fun i => (i, c) : Series)).map Prod.snd =
        List.replicate n c := by
      rw [List.map_map]
      have : (Prod.snd ∘ fun i : ℕ => (i, c)) = fun _ : ℕ => c := rfl
      rw [this, List.map_const']
      simp
    rw [rolling_zscore, if_neg]
    · rw [rollingRows, hvals, List.length_replicate, List.map_map]
      congr 1
      rw [List.eq_replicate_iff]
      refine ⟨by simp, ?_⟩
      intro b hb
      rcases List.mem_map.mp hb with ⟨i, hi, rfl⟩
      have hin : i < n := List.mem_range.mp hi
      show RollingRow.cells (rollingRowAt (List.replicate n c) w t i) = _
      rw [rollingRowAt_const n w c t i hin hw ht]
    · rw [Bool.or_eq_true, not_or]
      constructor
      · rw [hie]
        simp
      · rw [hlen]
        simpa using Nat.not_lt.mpr hwn
  · intro s w2 t2 r hr hstd
    rcases List.mem_map.mp hr with ⟨i, _, rfl⟩
    exact rollingRowAt_z_zero _ w2 t2 i hstd

/-- C6 witness: the statement at a constant series of 12 sevens, window 6,
threshold 2. -/
theorem C6_constant_series_witness :
    1 ≤ 6 ∧ 6 ≤ 12 ∧ (0 : ℚ) < 2 ∧
    (rolling_zscore ((List.range 12).map fun i => (i, (7 : ℚ))) 6 2 =
        ⟨rollingCols, List.replicate 12 (RollingRow.cells ⟨7, 7, 0, 0, false⟩)⟩ ∧
      (∀ (s : Series) (w2 : ℕ) (t2 : ℚ) (r : RollingRow),
        r ∈ rollingRows s w2 t2 → r.stdSq = 0 → r.zSq = 0)) :=
  ⟨by decide, by decide, by decide,
    C6_constant_series 7 2 12 6 (by decide) (by decide) (by decide)⟩

/-! ## Claim C10 -/

theorem dropWhile_of_clean {p : Char → Bool} :
    ∀ l : List Char, (∀ c ∈ l, p c = false) → l.dropWhile p = l := by
  intro l h
  cases l with
  | nil => rfl
  | cons a l => simp [List.dropWhile_cons, h a (List.mem_cons_self a l)]

theorem pyStrip_of_clean (l : List Char) (h : ∀ c ∈ l, isPyWs c = false) :
    pyStrip l = l := by
  unfold pyStrip
  rw [dropWhile_of_clean l h,
    dropWhile_of_clean l.reverse (fun c hc => h c (List.mem_reverse.mp hc))]
  exact List.reverse_reverse l

theorem match8_append (s extra : List Char) (h : 8 ≤ s.length) :
    match8 (s ++ extra) = match8 s := by
  unfold match8
  rw [List.take_append_of_le_length h]

theorem matchYsep_append (sep : Char) (s extra : List Char) (h : 10 ≤ s.length) :
    matchYsep sep (s ++ extra) = matchYsep sep s := by
  unfold matchYsep
  rw [List.take_append_of_le_length h]

theorem matchMsep_append (sep : Char) (s extra : List Char) (h : 10 ≤ s.length) :
    matchMsep sep (s ++ extra) = matchMsep sep s := by
  unfold matchMsep
  rw [List.take_append_of_le_length h]

theorem matchYsep_short (sep : Char) (s : List Char) (h : s.length = 8) :
    matchYsep sep s = none := by
  unfold matchYsep
  rw [if_neg]
  intro hcond
  have h10 := hcond.1
  rw [List.length_take, h] at h10
  omega

theorem matchMsep_short (sep : Char) (s : List Char) (h : s.length = 8) :
    matchMsep sep s = none := by
  unfold matchMsep
  rw [if_neg]
  intro hcond
  have h10 := hcond.1
  rw [List.length_take, h] at h10
  omega

theorem tryPatterns_append (s extra : List Char) (d : Ymd)
    (hlen : s.length = 8 ∨ s.length = 10)
    (h : tryPatterns s = some d) :
    tryPatterns (s ++ extra) = some d := by
  rcases hlen with h8 | h10
  · unfold tryPatterns at h ⊢
    rw [match8_append s extra (by omega)]
    rcases hm8 : match8 s with _ | d0
    · rw [hm8, matchYsep_short '-' s h8, matchMsep_short '/' s h8,
        matchMsep_short '-' s h8, matchYsep_short '/' s h8] at h
      simp at h
    · rw [hm8] at h
      exact h
  · unfold tryPatterns at h ⊢
    rw [match8_append s extra (by omega), matchYsep_append '-' s extra (by omega),
      matchMsep_append '/' s extra (by omega), matchMsep_append '-' s extra (by omega),
      matchYsep_append '/' s extra (by omega)]
    exact h

/-- C10: when a prefix of the input (of the exact width of one of the five
recognized patterns) matches a recognized date pattern and its digits form a
valid calendar date, _parse_date_robust returns exactly that date no matter
what non-whitespace characters follow the prefix, instead of a missing
date.  (The fallback parser is never consulted on such input.) -/
theorem C10_date_prefix_parse (fallback : List Char → Option Ymd)
    (s extra : List Char) (d : Ymd)
    (hlen : s.length = 8 ∨ s.length = 10)
    (hmatch : tryPatterns s = some d)
    (hclean : ∀ c ∈ s ++ extra, isPyWs c = false) :
    parse_date_robust fallback (s ++ extra) = some d := by
  unfold parse_date_robust
  rw [pyStrip_of_clean _ hclean]
  have hsne : s ≠ [] := by
    intro h0
    rw [h0] at hlen
    simp at hlen
  have hne : (s ++ extra).isEmpty = false := by
    apply isEmpty_false_of_ne_nil
    intro h0
    exact hsne (List.append_eq_nil.mp h0).1
  simp only [hne, Bool.false_eq_true, if_false]
  rw [tryPatterns_append s extra d hlen hmatch]

/-- C10 witness: eight digits followed by letters parse to the date of the
digit prefix. -/
theorem C10_date_prefix_parse_witness :
    ("20240115".data.length = 8 ∨ "20240115".data.length = 10) ∧
    tryPatterns "20240115".data = some ⟨2024, 1, 15⟩ ∧
    (∀ c ∈ "20240115".data ++ "abc".data, isPyWs c = false) ∧
    parse_date_robust (fun _ => none) ("20240115".data ++ "abc".data) =
      some ⟨2024, 1, 15⟩ :=
  ⟨Or.inl (by decide), by decide, by decide,
    C10_date_prefix_parse (fun _ => none) "20240115".data "abc".data ⟨2024, 1, 15⟩
      (Or.inl (by decide)) (by decide) (by decide)⟩

end AE
